import Mathlib

/-!
Verification of the genetic-algorithm VRP core
(src/vrp/algorithm/{chromosome,population,genetic}.py).

Shallow embedding conventions:
* Python ints are modelled as Lean integers (gene values) or naturals
  (lengths, indices, counters); distances are modelled as rationals.
* Randomness is modelled by passing the outcome of each random draw
  explicitly: the shuffled gene list of a fresh chromosome, the index
  pairs drawn by tournament selection, the two crossover cut points, the
  uniform draw compared against the mutation rate, and the two swap
  positions of a mutation.  Theorems quantify over these outcomes.
* A Python statement that raises (index out of range on the distance
  matrix, member access on None) is modelled by the value none; all
  fallible operations return Option.
-/

/-- One candidate VRP solution: `genes` is intended to be a permutation of
`0 .. num_locations + num_vehicles - 2`; `fitness` mirrors the Python
attribute that is `None` until `calculate_fitness` stores a value. -/
structure Chromosome where
  num_locations : Nat
  num_vehicles : Nat
  genes : List ℤ
  fitness : Option ℚ
deriving DecidableEq

/-- The depot marker used inside decoded routes (`self.depot_index = -1`). -/
def depot_index : ℤ := -1

/-- `Chromosome.__init__` with explicit genes (fitness starts out unset). -/
def mkChromosome (n v : Nat) (genes : List ℤ) : Chromosome :=
  { num_locations := n, num_vehicles := v, genes := genes, fitness := none }

/-- `list(range(num_locations + num_vehicles - 1))`: the value set every
chromosome's genes must be a permutation of. -/
def all_values (n v : Nat) : List ℤ :=
  (List.range (n + v - 1)).map (fun k : Nat => (k : ℤ))

/-- The delimiter test of `get_routes`:
`delimiter_start <= x < delimiter_end` with `delimiter_start = n` and
`delimiter_end = n + v - 1` (Python arithmetic, hence over ℤ). -/
def is_delimiter (n v : Nat) (x : ℤ) : Bool :=
  decide ((n : ℤ) ≤ x) && decide (x < (n : ℤ) + (v : ℤ) - 1)

/-- The loop of `get_routes` that collects the indices of
delimiter-valued genes, in increasing index order. -/
def delimiter_positions (c : Chromosome) : List Nat :=
  (List.range c.genes.length).filter
    (fun i => is_delimiter c.num_locations c.num_vehicles (c.genes.getD i 0))

/-- The route-splitting loop of `get_routes`: for each delimiter position
`p` emit the slice `positions[start:p]` filtered to location values
(`loc < num_locations`), then emit the filtered tail slice. -/
def split_routes (n : Nat) (positions : List ℤ) : List Nat → Nat → List (List ℤ)
  | [], start => [(positions.drop start).filter (fun x => decide (x < (n : ℤ)))]
  | p :: rest, start =>
      ((positions.drop start).take (p - start)).filter (fun x => decide (x < (n : ℤ)))
        :: split_routes n positions rest (p + 1)

/-- `Chromosome.get_routes`: split the genes at the (sorted) delimiter
positions and wrap every non-empty segment with the depot marker. -/
def get_routes (c : Chromosome) : List (List ℤ) :=
  let dps := List.insertionSort (· ≤ ·) (delimiter_positions c)
  let routes := split_routes c.num_locations c.genes dps 0
  (routes.filter (fun r => !r.isEmpty)).map (fun r => depot_index :: r ++ [depot_index])

/-- Python list indexing `l[i]` (negative indices count from the end;
out-of-range access raises, modelled as none). -/
def pyGet (l : List α) (i : ℤ) : Option α :=
  if 0 ≤ i then l[i.toNat]?
  else if 0 ≤ i + l.length then l[(i + l.length).toNat]?
  else none

/-- `distance_matrix[i][j]`. -/
def matrix_entry (m : List (List ℚ)) (i j : ℤ) : Option ℚ :=
  (pyGet m i).bind fun row => pyGet row j

/-- `0 if x == self.depot_index else x + 1`: map a route entry to its
distance-matrix index. -/
def to_matrix_index (x : ℤ) : ℤ :=
  if x = depot_index then 0 else x + 1

/-- The inner loop of `calculate_fitness`: sum the matrix entries of the
consecutive stop pairs of one route. -/
def route_distance (m : List (List ℚ)) : List ℤ → Option ℚ
  | a :: b :: rest =>
      (matrix_entry m (to_matrix_index a) (to_matrix_index b)).bind fun d =>
        (route_distance m (b :: rest)).map (fun s => d + s)
  | _ => some 0

/-- `Chromosome.calculate_fitness`: total distance over all decoded
routes (none if any matrix access is out of range). -/
def calculate_fitness (c : Chromosome) (m : List (List ℚ)) : Option ℚ :=
  (get_routes c).foldr
    (fun r acc => (route_distance m r).bind fun d => acc.map (fun s => d + s))
    (some 0)

/-- The distance matrix of the spec's concrete scenario: depot at index 0,
location `v` at index `v + 1`; unspecified entries are 0. -/
def demo_matrix : List (List ℚ) :=
  [ [0, 2, 0, 4, 0, 0],
    [0, 0, 3, 0, 0, 0],
    [2, 0, 0, 0, 0, 0],
    [0, 0, 0, 0, 1, 0],
    [0, 0, 0, 0, 0, 1],
    [3, 0, 0, 0, 0, 0] ]

/-- C2: with `numLocations = 5`, `numVehicles = 2` and genes
`[0,1,5,2,3,4]` the chromosome decodes to routes
`[[-1,0,1,-1],[-1,2,3,4,-1]]`, and with the stated distance matrix its
fitness evaluates to `(2+3+2) + (4+1+1+3) = 16`. -/
theorem claim_C2 :
    get_routes (mkChromosome 5 2 [0, 1, 5, 2, 3, 4]) =
      [[-1, 0, 1, -1], [-1, 2, 3, 4, -1]]
    ∧ calculate_fitness (mkChromosome 5 2 [0, 1, 5, 2, 3, 4]) demo_matrix = some 16 := by
  constructor
  · rfl
  · with_unfolding_all rfl

/-- The fitness value the engine compares and records.  Every chromosome
the engine handles has a computed fitness; reading `fitness` of an
unevaluated chromosome would raise in Python, so the default 0 is never
reached under the invariants proved below. -/
def fitVal (c : Chromosome) : ℚ :=
  c.fitness.getD 0

/-- `calculate_fitness` including its side effect of storing the result
on the chromosome (none if a matrix access was out of range). -/
def with_fitness (c : Chromosome) (m : List (List ℚ)) : Option Chromosome :=
  (calculate_fitness c m).map fun f => { c with fitness := some f }

/-- `Population.__init__` attributes. -/
structure Population where
  pop_size : Nat
  num_locations : Nat
  num_vehicles : Nat
  distance_matrix : List (List ℚ)
  chromosomes : List Chromosome
deriving DecidableEq

/-- `Population.initialize_population`: build `pop_size` chromosomes,
the k-th from the k-th random shuffle outcome, each fitness-evaluated
immediately. -/
def init_population (ps n v : Nat) (m : List (List ℚ))
    (shuffles : Nat → List ℤ) : Option (List Chromosome) :=
  (List.range ps).mapM fun k => with_fitness (mkChromosome n v (shuffles k)) m

/-- `Population.__init__` (construction runs `initialize_population`). -/
def population_new (ps n v : Nat) (m : List (List ℚ))
    (shuffles : Nat → List ℤ) : Option Population :=
  (init_population ps n v m shuffles).map fun cs =>
    { pop_size := ps, num_locations := n, num_vehicles := v,
      distance_matrix := m, chromosomes := cs }

/-- The sort key relation of `sorted(..., key=lambda x: x.fitness)`. -/
def fitLe (a b : Chromosome) : Prop :=
  fitVal a ≤ fitVal b

instance : DecidableRel fitLe := by
  intro a b
  exact inferInstanceAs (Decidable (fitVal a ≤ fitVal b))

instance : IsTotal Chromosome fitLe :=
  ⟨fun a b => le_total (fitVal a) (fitVal b)⟩

instance : IsTrans Chromosome fitLe :=
  ⟨fun _ _ _ hab hbc => le_trans hab hbc⟩

/-- `Population.find_best_chromosome`: first element of the population
sorted ascending by fitness (none for an empty population). -/
def find_best_chromosome (p : Population) : Option Chromosome :=
  (List.insertionSort fitLe p.chromosomes).head?

/-- `Population.get_average_fitness`. -/
def get_average_fitness (p : Population) : ℚ :=
  if p.chromosomes.isEmpty then 0
  else (p.chromosomes.map fitVal).sum / p.chromosomes.length

/-- `Genetic.__init__` attributes and run state. -/
structure Genetic where
  population : Population
  max_generations : Nat
  mutation_rate : ℚ
  elitism_size : Nat
  current_generation : Nat
  best_solution : Chromosome
  best_fitness_history : List ℚ
  avg_fitness_history : List ℚ
deriving DecidableEq

/-- `Genetic.__init__`: record the generation-0 incumbent (a copy of the
population's best chromosome) and the generation-0 history entries.
Reading `best_chrom.fitness` of an empty population would raise, hence
none. -/
def genetic_new (pop : Population) (maxGen : Nat) (rate : ℚ)
    (elitism : Nat) : Option Genetic :=
  (find_best_chromosome pop).map fun best =>
    { population := pop, max_generations := maxGen, mutation_rate := rate,
      elitism_size := elitism, current_generation := 0,
      best_solution := best,
      best_fitness_history := [fitVal best],
      avg_fitness_history := [get_average_fitness pop] }

/-- One binary tournament of `Genetic.selection`: the pair holds the two
distinct population indices drawn by `random.sample`; the winner is the
contender with lower-or-equal fitness. -/
def tournament (chroms : List Chromosome) (pr : Nat × Nat) : Option Chromosome :=
  chroms[pr.1]?.bind fun a =>
    chroms[pr.2]?.map fun b => if fitVal a ≤ fitVal b then a else b

/-- `Genetic.selection`: two binary tournaments, collecting exactly two
winners. -/
def selection (chroms : List Chromosome)
    (prs : (Nat × Nat) × (Nat × Nat)) : Option (List Chromosome) :=
  (tournament chroms prs.1).bind fun w1 =>
    (tournament chroms prs.2).map fun w2 => [w1, w2]

/-- The inner while loop of the crossover fill step: advance the parent
index past values already used.  `fuel` bounds the iteration count
(`fuel = length` always suffices since the index grows each step). -/
def skip_go (g1 : List ℤ) (used : Finset ℤ) : Nat → Nat → Nat
  | 0, idx => idx
  | fuel + 1, idx =>
      if idx < g1.length ∧ g1.getD idx 0 ∈ used then skip_go g1 used fuel (idx + 1)
      else idx

/-- `while parent1_index < chromosome_length and
parent1.genes[parent1_index] in used_values: parent1_index += 1`. -/
def skip_used (g1 : List ℤ) (used : Finset ℤ) (idx : Nat) : Nat :=
  skip_go g1 used g1.length idx

/-- The fill loop of `Genetic.crossover` for one offspring: position `i`
runs over `range(chromosome_length)`; middle positions `[p1, p2)` keep
the mid-parent's gene, other positions consume the next unused value of
the fill parent.  A position Python would leave as `None` (fill parent
exhausted) makes the offspring unusable and is modelled as none; `fuel`
bounds the loop (`length + 1` suffices). -/
def fill_from (g1 g2 : List ℤ) (p1 p2 : Nat) :
    Nat → Nat → Finset ℤ → Nat → Option (List ℤ)
  | 0, _, _, _ => none
  | fuel + 1, i, used, idx =>
      if i < g1.length then
        if p1 ≤ i ∧ i < p2 then
          g2[i]?.bind fun v =>
            (fill_from g1 g2 p1 p2 fuel (i + 1) used idx).map (fun out => v :: out)
        else
          match g1[skip_used g1 used idx]? with
          | some v =>
              (fill_from g1 g2 p1 p2 fuel (i + 1) (insert v used)
                  (skip_used g1 used idx + 1)).map (fun out => v :: out)
          | none => none
      else some []

/-- One offspring of `Genetic.crossover`: copy `g2[p1:p2]` into the
middle, fill the rest in order with the unused values of `g1`. -/
def crossover_one (g1 g2 : List ℤ) (p1 p2 : Nat) : Option (List ℤ) :=
  fill_from g1 g2 p1 p2 (g1.length + 1) 0 ((g2.drop p1).take (p2 - p1)).toFinset 0

/-- `Genetic.crossover` on the two parents' genes, given the sorted cut
points `p1 < p2`: offspring1 takes the middle from parent2 and fills
from parent1; offspring2 is the mirror construction. -/
def crossover (g1 g2 : List ℤ) (p1 p2 : Nat) : Option (List ℤ × List ℤ) :=
  (crossover_one g1 g2 p1 p2).bind fun o1 =>
    (crossover_one g2 g1 p1 p2).map fun o2 => (o1, o2)

/-- The gene swap of `Genetic.mutate` at the two drawn positions
(simultaneous assignment: both read the old values). -/
def swap_genes (g : List ℤ) (i j : Nat) : List ℤ :=
  (g.set i (g.getD j 0)).set j (g.getD i 0)

/-- `Genetic.mutate`: a fresh chromosome with two gene values swapped
(fitness unset, recomputed by the caller). -/
def mutate (c : Chromosome) (i j : Nat) : Chromosome :=
  mkChromosome c.num_locations c.num_vehicles (swap_genes c.genes i j)

/-- The random draws consumed by one iteration of the reproduction loop
of `create_next_generation`: the two tournament index pairs, the two
`random.choice` indices into the selected list, the two (unsorted)
crossover cut points, and for each offspring the uniform draw compared
against the mutation rate plus the two swap positions. -/
structure RoundRand where
  sel_pairs : (Nat × Nat) × (Nat × Nat)
  choice1 : Nat
  choice2 : Nat
  cut1 : Nat
  cut2 : Nat
  rand1 : ℚ
  mut1 : Nat × Nat
  rand2 : ℚ
  mut2 : Nat × Nat
deriving DecidableEq

/-- The parent pair a reproduction round hands to `crossover`:
`parent1 = random.choice(selected)` and `parent2 = random.choice(selected)`,
each an independent draw from the two tournament winners. -/
def round_parents (chroms : List Chromosome) (r : RoundRand) :
    Option (Chromosome × Chromosome) :=
  (selection chroms r.sel_pairs).bind fun sel =>
    sel[r.choice1]?.bind fun par1 =>
      sel[r.choice2]?.map fun par2 => (par1, par2)

/-- `if random.random() < self.mutation_rate: offspring = self.mutate(offspring)`. -/
def apply_mutation (rate rnd : ℚ) (pos : Nat × Nat) (c : Chromosome) : Chromosome :=
  if rnd < rate then mutate c pos.1 pos.2 else c

/-- The `while len(new_population) < pop_size` reproduction loop of
`create_next_generation`.  `chroms` is the (unchanged) current
population sampled by selection, `cur` the next generation built so far.
Each iteration consumes one `RoundRand`; an exhausted oracle list is
none (Python's random source never runs out, so theorems about a
completed loop are unaffected). -/
def build_loop (ps : Nat) (rate : ℚ) (m : List (List ℚ))
    (chroms : List Chromosome) :
    List Chromosome → List RoundRand → Option (List Chromosome)
  | cur, rounds =>
    if cur.length < ps then
      match rounds with
      | [] => none
      | r :: rest =>
          (selection chroms r.sel_pairs).bind fun sel =>
          if sel.length < 2 then some cur
          else
            sel[r.choice1]?.bind fun par1 =>
            sel[r.choice2]?.bind fun par2 =>
            let p1 := min r.cut1 r.cut2
            let p2 := max r.cut1 r.cut2
            (crossover par1.genes par2.genes p1 p2).bind fun os =>
            let o1 := apply_mutation rate r.rand1 r.mut1
              (mkChromosome par1.num_locations par1.num_vehicles os.1)
            (with_fitness o1 m).bind fun o1f =>
            if (cur ++ [o1f]).length < ps then
              let o2 := apply_mutation rate r.rand2 r.mut2
                (mkChromosome par1.num_locations par1.num_vehicles os.2)
              (with_fitness o2 m).bind fun o2f =>
              build_loop ps rate m chroms (cur ++ [o1f] ++ [o2f]) rest
            else
              build_loop ps rate m chroms (cur ++ [o1f]) rest
    else some cur

/-- `Genetic.create_next_generation`: keep the `elitism_size` best
chromosomes, fill up with offspring, replace the population, advance the
generation counter, update the incumbent on strict improvement, and
append the history entries. -/
def create_next_generation (g : Genetic) (rounds : List RoundRand) : Option Genetic :=
  let sortedChroms := List.insertionSort fitLe g.population.chromosomes
  let elites := sortedChroms.take g.elitism_size
  (build_loop g.population.pop_size g.mutation_rate g.population.distance_matrix
      g.population.chromosomes elites rounds).bind fun newChroms =>
    let popNext : Population := { g.population with chromosomes := newChroms }
    (find_best_chromosome popNext).map fun currentBest =>
      { g with
        population := popNext,
        current_generation := g.current_generation + 1,
        best_solution :=
          if fitVal currentBest < fitVal g.best_solution then currentBest
          else g.best_solution,
        best_fitness_history := g.best_fitness_history ++ [fitVal currentBest],
        avg_fitness_history := g.avg_fitness_history ++ [get_average_fitness popNext] }

/-- The evolution loop of `Genetic.run`: `k` generations remain, each
consuming one per-generation oracle list. -/
def run_loop : Genetic → Nat → List (List RoundRand) → Option Genetic
  | g, 0, _ => some g
  | _, _ + 1, [] => none
  | g, k + 1, r :: rest => (create_next_generation g r).bind fun g2 => run_loop g2 k rest

/-- `Genetic.run`: advance exactly `max_generations` generations (the
returned best solution is the `best_solution` field of the final
state). -/
def run (g : Genetic) (rds : List (List RoundRand)) : Option Genetic :=
  run_loop g g.max_generations rds

/-! ### Route decoding: the segments of a gene list concatenate to its
location values (used by claims C10 and C8). -/

lemma getD_of_lt (l : List α) (d : α) {n : Nat} (h : n < l.length) :
    l.getD n d = l[n] := by
  simp [List.getD_eq_getElem?_getD, List.getElem?_eq_getElem h]

lemma is_delimiter_not_lt {n v : Nat} {x : ℤ} (h : is_delimiter n v x = true) :
    ¬(x < (n : ℤ)) := by
  simp only [is_delimiter, Bool.and_eq_true, decide_eq_true_eq] at h
  exact not_lt.mpr h.1

lemma mem_delimiter_positions {c : Chromosome} {i : Nat}
    (h : i ∈ delimiter_positions c) :
    i < c.genes.length ∧
      is_delimiter c.num_locations c.num_vehicles (c.genes.getD i 0) = true := by
  simp only [delimiter_positions, List.mem_filter, List.mem_range] at h
  exact h

lemma delimiter_positions_pairwise (c : Chromosome) :
    List.Pairwise (· < ·) (delimiter_positions c) :=
  (List.pairwise_lt_range _).filter _

lemma delimiter_positions_sort_eq (c : Chromosome) :
    List.insertionSort (· ≤ ·) (delimiter_positions c) = delimiter_positions c :=
  List.Sorted.insertionSort_eq ((delimiter_positions_pairwise c).imp Nat.le_of_lt)

lemma drop_decomp {l : List α} {start p : Nat} (hsp : start ≤ p) (hp : p < l.length) :
    l.drop start = (l.drop start).take (p - start) ++ l[p] :: l.drop (p + 1) := by
  conv_lhs => rw [← List.take_append_drop (p - start) (l.drop start)]
  rw [List.drop_drop]
  have hps : start + (p - start) = p := by omega
  rw [hps, List.drop_eq_getElem_cons hp]

lemma join_split (n : Nat) (l : List ℤ) :
    ∀ (dps : List Nat) (start : Nat),
      (∀ i ∈ dps, start ≤ i ∧ i < l.length ∧ ¬(l.getD i 0 < (n : ℤ))) →
      List.Pairwise (· < ·) dps →
      (split_routes n l dps start).flatten
        = (l.drop start).filter (fun x => decide (x < (n : ℤ)))
  | [], start => by
      intro _ _
      simp [split_routes]
  | p :: rest, start => by
      intro hmem hpw
      obtain ⟨hsp, hp, hnl⟩ := hmem p (List.mem_cons_self p rest)
      have hrest : ∀ i ∈ rest, p + 1 ≤ i ∧ i < l.length ∧ ¬(l.getD i 0 < (n : ℤ)) := by
        intro i hi
        obtain ⟨-, h2, h3⟩ := hmem i (List.mem_cons_of_mem p hi)
        exact ⟨(List.rel_of_pairwise_cons hpw hi), h2, h3⟩
      have IH := join_split n l rest (p + 1) hrest hpw.of_cons
      simp only [split_routes, List.flatten_cons]
      rw [IH]
      conv_rhs => rw [drop_decomp hsp hp]
      rw [List.filter_append, List.filter_cons]
      rw [getD_of_lt l 0 hp] at hnl
      simp [hnl]

lemma wrap_filter_flatten : ∀ L : List (List ℤ),
    ((((L.filter (fun r => !r.isEmpty)).map
        (fun r => depot_index :: r ++ [depot_index])).flatten).filter
          (fun x => decide (x ≠ depot_index)))
      = (L.flatten).filter (fun x => decide (x ≠ depot_index))
  | [] => by simp
  | r :: L => by
      by_cases hr : r.isEmpty
      · rw [List.isEmpty_iff] at hr
        subst hr
        simpa using wrap_filter_flatten L
      · have hd : (depot_index :: r ++ [depot_index]).filter
            (fun x => decide (x ≠ depot_index))
              = r.filter (fun x => decide (x ≠ depot_index)) := by
          simp [List.filter_cons, List.filter_append]
        have hstep : (r :: L).filter (fun s => !s.isEmpty)
            = r :: L.filter (fun s => !s.isEmpty) := by
          simp [List.filter_cons, hr]
        rw [hstep, List.map_cons, List.flatten_cons, List.filter_append, hd,
          wrap_filter_flatten L, List.flatten_cons, List.filter_append]

lemma all_values_nodup (n v : Nat) : (all_values n v).Nodup :=
  (List.nodup_range _).map fun _ _ h => Nat.cast_injective h

lemma all_values_length (n v : Nat) : (all_values n v).length = n + v - 1 := by
  simp [all_values]

lemma all_values_filter (n v : Nat) (hv : 1 ≤ v) :
    (all_values n v).filter (fun x => decide (x < (n : ℤ)))
      = (List.range n).map (fun k : Nat => (k : ℤ)) := by
  have hnv : n + v - 1 = n + (v - 1) := by omega
  rw [all_values, hnv, List.range_add, List.map_append, List.filter_append]
  rw [List.filter_eq_self.mpr, List.filter_eq_nil_iff.mpr, List.append_nil]
  · intro a ha
    simp only [List.map_map, List.mem_map, List.mem_range, Function.comp] at ha
    obtain ⟨j, -, rfl⟩ := ha
    simp only [decide_eq_true_eq, not_lt]
    exact_mod_cast Nat.le_add_right n j
  · intro a ha
    simp only [List.mem_map, List.mem_range] at ha
    obtain ⟨j, hj, rfl⟩ := ha
    simp only [decide_eq_true_eq]
    exact_mod_cast hj

lemma mem_all_values_nonneg {n v : Nat} {x : ℤ} (h : x ∈ all_values n v) : 0 ≤ x := by
  simp only [all_values, List.mem_map, List.mem_range] at h
  obtain ⟨j, -, rfl⟩ := h
  exact Int.natCast_nonneg j

/-- C10: for a chromosome whose genes are a permutation of
`{0, …, numLocations + numVehicles − 2}`, the concatenation of the
decoded routes with the depot markers removed visits every location in
`{0, …, numLocations − 1}` exactly once and nothing else. -/
theorem claim_C10 (n v : Nat) (genes : List ℤ) (hv : 1 ≤ v)
    (hperm : genes.Perm (all_values n v)) :
    (((get_routes (mkChromosome n v genes)).flatten).filter
        (fun x => decide (x ≠ depot_index))).Perm ((List.range n).map (fun k : Nat => (k : ℤ))) := by
  have hsort := delimiter_positions_sort_eq (mkChromosome n v genes)
  simp only [get_routes, hsort]
  rw [wrap_filter_flatten]
  have hmem : ∀ i ∈ delimiter_positions (mkChromosome n v genes),
      0 ≤ i ∧ i < genes.length ∧ ¬(genes.getD i 0 < (n : ℤ)) := by
    intro i hi
    obtain ⟨h1, h2⟩ := mem_delimiter_positions hi
    exact ⟨Nat.zero_le i, h1, is_delimiter_not_lt h2⟩
  simp only [mkChromosome] at hmem ⊢
  rw [join_split n genes (delimiter_positions ⟨n, v, genes, none⟩) 0 hmem
    (delimiter_positions_pairwise _), List.drop_zero]
  rw [List.filter_eq_self.mpr]
  · exact (hperm.filter _).trans (by rw [all_values_filter n v hv])
  · intro a ha
    have hag : a ∈ genes := (List.mem_filter.mp ha).1
    have := mem_all_values_nonneg (hperm.mem_iff.mp hag)
    simp only [decide_eq_true_eq, depot_index]
    omega

/-- Witness for C10 at the spec's concrete chromosome. -/
theorem claim_C10_witness :
    (1 ≤ 2
      ∧ ([0, 1, 5, 2, 3, 4] : List ℤ).Perm (all_values 5 2))
    ∧ (((get_routes (mkChromosome 5 2 [0, 1, 5, 2, 3, 4])).flatten).filter
        (fun x => decide (x ≠ depot_index))).Perm ((List.range 5).map (fun k : Nat => (k : ℤ))) :=
  ⟨⟨by decide, by decide⟩, claim_C10 5 2 [0, 1, 5, 2, 3, 4] (by decide) (by decide)⟩

/-! ### Claim C8: a distance matrix smaller than `numLocations + 1` makes
Population construction fail during the initial fitness evaluation. -/

lemma route_distance_cons_none (m : List (List ℚ)) :
    ∀ {l : List ℤ}, route_distance m l = none → ∀ a : ℤ, route_distance m (a :: l) = none
  | [], hl => by simp [route_distance] at hl
  | [b], hl => by simp [route_distance] at hl
  | b :: c :: rest, hl => by
      intro a
      simp only [route_distance] at hl ⊢
      rw [hl]
      cases matrix_entry m (to_matrix_index a) (to_matrix_index b) <;> simp

lemma route_distance_append_none (m : List (List ℚ)) (x b : ℤ) (w : List ℤ)
    (hx : pyGet m (to_matrix_index x) = none) :
    ∀ u : List ℤ, route_distance m (u ++ x :: b :: w) = none
  | [] => by
      simp only [List.nil_append, route_distance, matrix_entry, hx, Option.none_bind]
  | a :: u => by
      rw [List.cons_append]
      exact route_distance_cons_none m (route_distance_append_none m x b w hx u) a

lemma calc_fold_none (m : List (List ℚ)) :
    ∀ (L : List (List ℤ)) (r : List ℤ), r ∈ L → route_distance m r = none →
      L.foldr (fun r acc => (route_distance m r).bind fun d => acc.map (fun s => d + s))
        (some 0) = none
  | [], r, hr, _ => by cases hr
  | s :: L, r, hr, hnone => by
      rcases List.mem_cons.mp hr with h | h
      · subst h
        simp [List.foldr_cons, hnone]
      · have := calc_fold_none m L r h hnone
        simp only [List.foldr_cons, this]
        cases route_distance m s <;> simp

lemma calculate_fitness_small_matrix {n v : Nat} (genes : List ℤ)
    (m : List (List ℚ)) (hn : 1 ≤ n) (hv : 1 ≤ v)
    (hperm : genes.Perm (all_values n v)) (hm : m.length < n + 1) :
    calculate_fitness (mkChromosome n v genes) m = none := by
  -- the gene value n-1 is a location and appears in some decoded segment
  have hmemg : (((n - 1 : Nat) : ℤ)) ∈ genes := by
    apply hperm.mem_iff.mpr
    simp only [all_values, List.mem_map, List.mem_range]
    exact ⟨n - 1, by omega, rfl⟩
  have hlt : (((n - 1 : Nat) : ℤ)) < (n : ℤ) := by
    have : n - 1 < n := by omega
    exact_mod_cast this
  have hmem : ∀ i ∈ delimiter_positions (mkChromosome n v genes),
      0 ≤ i ∧ i < genes.length ∧ ¬(genes.getD i 0 < (n : ℤ)) := by
    intro i hi
    obtain ⟨h1, h2⟩ := mem_delimiter_positions hi
    exact ⟨Nat.zero_le i, h1, is_delimiter_not_lt h2⟩
  simp only [mkChromosome] at hmem
  have hflat : (((n - 1 : Nat) : ℤ)) ∈
      (split_routes n genes (delimiter_positions ⟨n, v, genes, none⟩) 0).flatten := by
    rw [join_split n genes (delimiter_positions ⟨n, v, genes, none⟩) 0 hmem
      (delimiter_positions_pairwise _), List.drop_zero, List.mem_filter]
    exact ⟨hmemg, by simpa using hlt⟩
  obtain ⟨seg, hseg, hxseg⟩ := List.mem_flatten.mp hflat
  -- the wrapped segment is one of the decoded routes
  have hroute : (depot_index :: seg ++ [depot_index]) ∈
      get_routes (mkChromosome n v genes) := by
    simp only [get_routes, delimiter_positions_sort_eq, mkChromosome]
    refine List.mem_map.mpr ⟨seg, List.mem_filter.mpr ⟨hseg, ?_⟩, rfl⟩
    simp [List.isEmpty_iff, List.ne_nil_of_mem hxseg]
  -- the row of location n-1 (matrix index n) is out of range
  have hx : pyGet m (to_matrix_index (((n - 1 : Nat) : ℤ))) = none := by
    have hne : ((n - 1 : Nat) : ℤ) ≠ depot_index := by
      simp only [depot_index]
      omega
    have hidx : ((n - 1 : Nat) : ℤ) + 1 = ((n : Nat) : ℤ) := by omega
    simp only [to_matrix_index, if_neg hne, hidx, pyGet]
    rw [if_pos (by omega)]
    apply List.getElem?_eq_none
    simp only [Int.toNat_ofNat]
    omega
  -- the route containing n-1 has a failing consecutive pair
  obtain ⟨s1, s2, rfl⟩ := List.append_of_mem hxseg
  have hdist : route_distance m (depot_index :: (s1 ++ ((n - 1 : Nat) : ℤ) :: s2)
      ++ [depot_index]) = none := by
    obtain ⟨b, w, hbw⟩ : ∃ b w, s2 ++ [depot_index] = b :: w := by
      cases s2 with
      | nil => exact ⟨depot_index, [], rfl⟩
      | cons c s2 => exact ⟨c, s2 ++ [depot_index], rfl⟩
    have hshape : depot_index :: (s1 ++ ((n - 1 : Nat) : ℤ) :: s2) ++ [depot_index]
        = (depot_index :: s1) ++ ((n - 1 : Nat) : ℤ) :: b :: w := by
      simp only [List.cons_append, List.append_assoc, List.cons_append, ← hbw]
    rw [hshape]
    exact route_distance_append_none m (((n - 1 : Nat) : ℤ)) b w hx (depot_index :: s1)
  exact calc_fold_none m (get_routes (mkChromosome n v genes)) _ hroute hdist

/-- C8: if the distance matrix has fewer than `numLocations + 1` rows
(with `numLocations ≥ 1`, `numVehicles ≥ 1`, `popSize ≥ 1`), Population
construction fails during the initial fitness evaluation. -/
theorem claim_C8 (ps n v : Nat) (m : List (List ℚ)) (shuffles : Nat → List ℤ)
    (hn : 1 ≤ n) (hv : 1 ≤ v) (hps : 1 ≤ ps) (hm : m.length < n + 1)
    (hsh : ∀ k, k < ps → (shuffles k).Perm (all_values n v)) :
    population_new ps n v m shuffles = none := by
  obtain ⟨k, rfl⟩ : ∃ k, ps = k + 1 := ⟨ps - 1, by omega⟩
  have hfail : with_fitness (mkChromosome n v (shuffles 0)) m = none := by
    rw [with_fitness,
      calculate_fitness_small_matrix (shuffles 0) m hn hv (hsh 0 (by omega)) hm]
    rfl
  rw [population_new, init_population, List.range_succ_eq_map, List.mapM_cons, hfail]
  rfl

/-- Witness for C8: a 1-by-1 matrix cannot serve one location. -/
theorem claim_C8_witness :
    (([0] : List ℤ).Perm (all_values 1 1)
      ∧ ([[(0 : ℚ)]] : List (List ℚ)).length < 1 + 1)
    ∧ population_new 1 1 1 [[(0 : ℚ)]] (fun _ => [0]) = none :=
  ⟨⟨by decide, by decide⟩,
    claim_C8 1 1 1 [[(0 : ℚ)]] (fun _ => [0]) (by decide) (by decide) (by decide)
      (by decide) (fun _ _ => (by decide : ([0] : List ℤ).Perm (all_values 1 1)))⟩

/-! ### Claim C1: initialization, crossover and swap mutation preserve
the permutation invariant. -/

lemma nodup_getElem_not_mem_drop {l : List α} (h : l.Nodup) {i : Nat}
    (hi : i < l.length) : l[i] ∉ l.drop (i + 1) := by
  intro hmem
  have hsplit : l = l.take (i + 1) ++ l.drop (i + 1) :=
    (List.take_append_drop (i + 1) l).symm
  have hnd : (l.take (i + 1) ++ l.drop (i + 1)).Nodup := hsplit ▸ h
  have hdisj := (List.nodup_append.mp hnd).2.2
  have htk : l[i] ∈ l.take (i + 1) := by
    have hlen : i < (l.take (i + 1)).length := by
      simp only [List.length_take]
      omega
    have : (l.take (i + 1))[i] = l[i] := List.getElem_take l
    exact this ▸ List.getElem_mem hlen
  exact hdisj htk hmem

lemma skip_go_spec (g1 : List ℤ) (used0 : Finset ℤ) (hnd : g1.Nodup) :
    ∀ (fuel idx : Nat) (used : Finset ℤ), g1.length ≤ fuel + idx →
      (∀ k, k < idx → g1.getD k 0 ∈ used) →
      (((g1.drop idx).filter (fun x => decide (x ∉ used))) = [] ∧
        g1[skip_go g1 used fuel idx]? = none)
      ∨ (∃ r rest, ((g1.drop idx).filter (fun x => decide (x ∉ used))) = r :: rest ∧
          g1[skip_go g1 used fuel idx]? = some r ∧
          (∀ k, k < skip_go g1 used fuel idx + 1 → g1.getD k 0 ∈ insert r used) ∧
          ((g1.drop (skip_go g1 used fuel idx + 1)).filter
            (fun x => decide (x ∉ insert r used))) = rest)
  | 0, idx, used => by
      intro hfuel _
      left
      have hle : g1.length ≤ idx := by omega
      constructor
      · rw [List.drop_eq_nil_of_le hle]
        rfl
      · exact List.getElem?_eq_none (by simpa [skip_go] using hle)
  | fuel + 1, idx, used => by
      intro hfuel hpre
      by_cases hc : idx < g1.length ∧ g1.getD idx 0 ∈ used
      · have hunf : skip_go g1 used (fuel + 1) idx
            = if idx < g1.length ∧ g1.getD idx 0 ∈ used then skip_go g1 used fuel (idx + 1)
              else idx := rfl
        have hstep : skip_go g1 used (fuel + 1) idx = skip_go g1 used fuel (idx + 1) := by
          rw [hunf, if_pos hc]
        have hpre2 : ∀ k, k < idx + 1 → g1.getD k 0 ∈ used := by
          intro k hk
          rcases Nat.lt_or_ge k idx with h | h
          · exact hpre k h
          · have : k = idx := by omega
            subst this
            exact hc.2
        have hdropeq : (g1.drop idx).filter (fun x => decide (x ∉ used))
            = (g1.drop (idx + 1)).filter (fun x => decide (x ∉ used)) := by
          rw [List.drop_eq_getElem_cons hc.1, List.filter_cons]
          have : g1.getD idx 0 = g1[idx] := getD_of_lt g1 0 hc.1
          rw [this] at hc
          simp [hc.2]
        rw [hstep, hdropeq]
        exact skip_go_spec g1 used0 hnd fuel (idx + 1) used (by omega) hpre2
      · have hunf : skip_go g1 used (fuel + 1) idx
            = if idx < g1.length ∧ g1.getD idx 0 ∈ used then skip_go g1 used fuel (idx + 1)
              else idx := rfl
        have hstep : skip_go g1 used (fuel + 1) idx = idx := by
          rw [hunf, if_neg hc]
        rcases Nat.lt_or_ge idx g1.length with hlt | hge
        · -- stopped on an unused value
          have hnotused : g1.getD idx 0 ∉ used := fun hmem => hc ⟨hlt, hmem⟩
          rw [getD_of_lt g1 0 hlt] at hnotused
          right
          refine ⟨g1[idx], (g1.drop (idx + 1)).filter (fun x => decide (x ∉ used)),
            ?_, ?_, ?_, ?_⟩
          · rw [List.drop_eq_getElem_cons hlt, List.filter_cons]
            simp [hnotused]
          · rw [hstep]
            exact List.getElem?_eq_getElem hlt
          · intro k hk
            rw [hstep] at hk
            rcases Nat.lt_or_ge k idx with h | h
            · exact Finset.mem_insert_of_mem (hpre k h)
            · have : k = idx := by omega
              subst this
              rw [getD_of_lt g1 0 hlt]
              exact Finset.mem_insert_self _ _
          · rw [hstep]
            apply List.filter_congr
            intro x hx
            have hxne : x ≠ g1[idx] := by
              intro heq
              subst heq
              exact nodup_getElem_not_mem_drop hnd hlt hx
            simp [Finset.mem_insert, hxne]
        · left
          constructor
          · rw [List.drop_eq_nil_of_le hge]
            rfl
          · rw [hstep]
            exact List.getElem?_eq_none hge

/-- Proof-side counter: how many positions of `[i, L)` lie outside the
copied middle segment `[p1, p2)` (the holes the crossover fill loop must
fill from position `i` on). -/
def holes (p1 p2 L i : Nat) : Nat :=
  ((List.range' i (L - i)).filter
    (fun k => !(decide (p1 ≤ k) && decide (k < p2)))).length

lemma holes_of_le {p1 p2 L i : Nat} (h : L ≤ i) : holes p1 p2 L i = 0 := by
  simp [holes, Nat.sub_eq_zero_of_le h]

lemma range'_sub_succ {L i : Nat} (h : i < L) :
    List.range' i (L - i) = i :: List.range' (i + 1) (L - (i + 1)) := by
  have h1 : L - i = (L - (i + 1)) + 1 := by omega
  rw [h1, List.range'_succ]

lemma holes_mid {p1 p2 L i : Nat} (hiL : i < L) (h : p1 ≤ i ∧ i < p2) :
    holes p1 p2 L i = holes p1 p2 L (i + 1) := by
  rw [holes, range'_sub_succ hiL, List.filter_cons]
  simp [holes, h.1, h.2]

lemma holes_hole {p1 p2 L i : Nat} (hiL : i < L) (h : ¬(p1 ≤ i ∧ i < p2)) :
    holes p1 p2 L i = holes p1 p2 L (i + 1) + 1 := by
  rw [holes, range'_sub_succ hiL, List.filter_cons]
  have : (!(decide (p1 ≤ i) && decide (i < p2))) = true := by
    rcases Nat.lt_or_ge i p1 with h1 | h1
    · simp [Nat.not_le.mpr h1]
    · have h2 : ¬(i < p2) := fun h2 => h ⟨h1, h2⟩
      simp [h2]
  rw [this]
  simp [holes]

lemma holes_zero (p1 p2 L : Nat) (h12 : p1 ≤ p2) (h2L : p2 ≤ L) :
    holes p1 p2 L 0 = L - (p2 - p1) := by
  have hsplit2 : List.range' 0 p2 ++ List.range' p2 (L - p2) = List.range' 0 L := by
    have h2 := List.range'_append 0 p2 (L - p2) 1
    simp only [Nat.one_mul, Nat.zero_add] at h2
    rw [show L - p2 + p2 = L from by omega] at h2
    exact h2
  have hsplit1 : List.range' 0 p1 ++ List.range' p1 (p2 - p1) = List.range' 0 p2 := by
    have h1 := List.range'_append 0 p1 (p2 - p1) 1
    simp only [Nat.one_mul, Nat.zero_add] at h1
    rw [show p2 - p1 + p1 = p2 from by omega] at h1
    exact h1
  rw [holes, Nat.sub_zero, ← hsplit2, ← hsplit1]
  rw [List.filter_append, List.filter_append]
  rw [List.filter_eq_self.mpr, List.filter_eq_nil_iff.mpr, List.filter_eq_self.mpr]
  · simp only [List.length_append, List.length_nil, List.length_range']
    omega
  · intro a ha
    have hm := List.mem_range'_1.mp ha
    rcases (by omega : p2 ≤ a) with h
    simp [Nat.not_lt.mpr h]
  · intro a ha
    have hm := List.mem_range'_1.mp ha
    have hgoal : p1 ≤ a ∧ a < p2 := by omega
    simp [hgoal.1, hgoal.2]
  · intro a ha
    have hm := List.mem_range'_1.mp ha
    rcases (by omega : a < p1) with h
    simp [Nat.not_le.mpr h]

lemma fill_spec (g1 g2 : List ℤ) (p1 p2 : Nat) (hnd : g1.Nodup)
    (hp2g2 : p2 ≤ g2.length) (hp2L : p2 ≤ g1.length) :
    ∀ (fuel i : Nat) (used : Finset ℤ) (idx : Nat),
      g1.length + 1 ≤ fuel + i → i ≤ g1.length →
      (∀ k, k < idx → g1.getD k 0 ∈ used) →
      holes p1 p2 g1.length i
        ≤ ((g1.drop idx).filter (fun x => decide (x ∉ used))).length →
      ∃ out, fill_from g1 g2 p1 p2 fuel i used idx = some out ∧
        out.Perm ((g2.take p2).drop (max i p1)
          ++ ((g1.drop idx).filter (fun x => decide (x ∉ used))).take
              (holes p1 p2 g1.length i))
  | 0, i, used, idx => by
      intro hfuel hiL _ _
      omega
  | fuel + 1, i, used, idx => by
      intro hfuel hiL hpre hcount
      have hunf : fill_from g1 g2 p1 p2 (fuel + 1) i used idx
          = if i < g1.length then
              if p1 ≤ i ∧ i < p2 then
                g2[i]?.bind fun v =>
                  (fill_from g1 g2 p1 p2 fuel (i + 1) used idx).map (fun out => v :: out)
              else
                match g1[skip_used g1 used idx]? with
                | some v =>
                    (fill_from g1 g2 p1 p2 fuel (i + 1) (insert v used)
                        (skip_used g1 used idx + 1)).map (fun out => v :: out)
                | none => none
            else some [] := rfl
      by_cases hiLt : i < g1.length
      · by_cases hmid : p1 ≤ i ∧ i < p2
        · -- middle position: copy the gene of the mid parent
          have hi2 : i < g2.length := lt_of_lt_of_le hmid.2 hp2g2
          have hget : g2[i]? = some g2[i] := List.getElem?_eq_getElem hi2
          have hcount2 : holes p1 p2 g1.length (i + 1)
              ≤ ((g1.drop idx).filter (fun x => decide (x ∉ used))).length := by
            rw [← holes_mid hiLt hmid]
            exact hcount
          obtain ⟨out, hout, hperm⟩ := fill_spec g1 g2 p1 p2 hnd hp2g2 hp2L fuel (i + 1)
            used idx (by omega) (by omega) hpre hcount2
          refine ⟨g2[i] :: out, ?_, ?_⟩
          · rw [hunf, if_pos hiLt, if_pos hmid, hget]
            simp [hout]
          · have hmax1 : max i p1 = i := Nat.max_eq_left hmid.1
            have hmax2 : max (i + 1) p1 = i + 1 := Nat.max_eq_left (by omega)
            have hlen_take : i < (g2.take p2).length := by
              simp only [List.length_take]
              omega
            have hmids : (g2.take p2).drop (max i p1)
                = g2[i] :: (g2.take p2).drop (max (i + 1) p1) := by
              rw [hmax1, hmax2, List.drop_eq_getElem_cons hlen_take]
              congr 1
              exact List.getElem_take g2
            rw [hmids, holes_mid hiLt hmid, List.cons_append]
            exact hperm.cons _
        · -- hole position: consume the next unused value of the fill parent
          have hhole : holes p1 p2 g1.length i = holes p1 p2 g1.length (i + 1) + 1 :=
            holes_hole hiLt hmid
          rcases skip_go_spec g1 used hnd g1.length idx used (by omega) hpre with
            ⟨hempty, -⟩ | ⟨r, rest, hrem, hget, hpre2, hrest⟩
          · rw [hempty] at hcount
            simp only [List.length_nil] at hcount
            omega
          · have hget2 : g1[skip_used g1 used idx]? = some r := hget
            have hremlen : ((g1.drop idx).filter
                (fun x => decide (x ∉ used))).length = rest.length + 1 := by
              rw [hrem, List.length_cons]
            have hcount2 : holes p1 p2 g1.length (i + 1)
                ≤ ((g1.drop (skip_go g1 used g1.length idx + 1)).filter
                    (fun x => decide (x ∉ insert r used))).length := by
              rw [hrest]
              omega
            obtain ⟨out, hout, hperm⟩ := fill_spec g1 g2 p1 p2 hnd hp2g2 hp2L fuel (i + 1)
              (insert r used) (skip_go g1 used g1.length idx + 1) (by omega) (by omega)
              hpre2 hcount2
            have hout2 : fill_from g1 g2 p1 p2 fuel (i + 1) (insert r used)
                (skip_used g1 used idx + 1) = some out := hout
            refine ⟨r :: out, ?_, ?_⟩
            · rw [hunf, if_pos hiLt, if_neg hmid, hget2]
              simp [hout2]
            · have hmids_eq : (g2.take p2).drop (max i p1)
                  = (g2.take p2).drop (max (i + 1) p1) := by
                rcases Nat.lt_or_ge i p1 with h | h
                · rw [Nat.max_eq_right (Nat.le_of_lt h), Nat.max_eq_right (by omega)]
                · have h2 : p2 ≤ i := by omega
                  rw [List.drop_eq_nil_of_le, List.drop_eq_nil_of_le] <;>
                    · simp only [List.length_take]
                      omega
              rw [hrem, hhole, List.take_succ_cons, hmids_eq]
              have hrest2 : out.Perm ((g2.take p2).drop (max (i + 1) p1)
                  ++ rest.take (holes p1 p2 g1.length (i + 1))) := by
                rw [← hrest]
                exact hperm
              exact (hrest2.cons r).trans List.perm_middle.symm
      · -- i = length: the loop is complete
        refine ⟨[], ?_, ?_⟩
        · rw [hunf, if_neg hiLt]
        · have h0 : holes p1 p2 g1.length i = 0 := holes_of_le (by omega)
          have hmids : (g2.take p2).drop (max i p1) = [] := by
            apply List.drop_eq_nil_of_le
            simp only [List.length_take]
            omega
          rw [h0, hmids]
          simp

lemma crossover_one_perm {B g1 g2 : List ℤ} (hB : B.Nodup)
    (hg1 : g1.Perm B) (hg2 : g2.Perm B) {p1 p2 : Nat} (hp12 : p1 < p2)
    (hp2 : p2 < g1.length) :
    ∃ out, crossover_one g1 g2 p1 p2 = some out ∧ out.Perm B := by
  have hnd1 : g1.Nodup := hg1.nodup_iff.mpr hB
  have hnd2 : g2.Nodup := hg2.nodup_iff.mpr hB
  have hlen : g1.length = g2.length := by rw [hg1.length_eq, hg2.length_eq]
  have hp2g2 : p2 ≤ g2.length := by omega
  have hp2L : p2 ≤ g1.length := le_of_lt hp2
  have hslice_sub : ((g2.drop p1).take (p2 - p1)).Sublist g2 :=
    (List.take_sublist _ _).trans (List.drop_sublist _ _)
  have hslice_nd : ((g2.drop p1).take (p2 - p1)).Nodup := hnd2.sublist hslice_sub
  have hslice_len : ((g2.drop p1).take (p2 - p1)).length = p2 - p1 := by
    simp only [List.length_take, List.length_drop]
    omega
  have hsub_mid : ((g2.drop p1).take (p2 - p1)).toFinset ⊆ g1.toFinset := by
    intro x hx
    rw [List.mem_toFinset] at hx ⊢
    exact hg1.symm.subset (hg2.subset (hslice_sub.subset hx))
  have hA_perm : (g1.filter
        (fun x => decide (x ∈ ((g2.drop p1).take (p2 - p1)).toFinset))).Perm
      ((g2.drop p1).take (p2 - p1)) := by
    apply List.perm_of_nodup_nodup_toFinset_eq (hnd1.filter _) hslice_nd
    ext x
    simp only [List.toFinset_filter, Finset.mem_filter, List.mem_toFinset,
      decide_eq_true_eq]
    constructor
    · intro hx
      exact hx.2
    · intro hx
      refine ⟨?_, hx⟩
      exact hg1.symm.mem_iff.mp (hg2.mem_iff.mp (hslice_sub.subset hx))
  have hA_len : (g1.filter
        (fun x => decide (x ∈ ((g2.drop p1).take (p2 - p1)).toFinset))).length
      = p2 - p1 := by
    rw [hA_perm.length_eq, hslice_len]
  have hsplit_perm := List.filter_append_perm
    (fun x => decide (x ∈ ((g2.drop p1).take (p2 - p1)).toFinset)) g1
  have hnot_eq : (fun x : ℤ => decide (x ∉ ((g2.drop p1).take (p2 - p1)).toFinset))
      = (fun x : ℤ => !decide (x ∈ ((g2.drop p1).take (p2 - p1)).toFinset)) := by
    funext x
    rw [decide_not]
  have hRem_len : (g1.filter
        (fun x => decide (x ∉ ((g2.drop p1).take (p2 - p1)).toFinset))).length
      = g1.length - (p2 - p1) := by
    have htotal := hsplit_perm.length_eq
    rw [List.length_append] at htotal
    rw [hnot_eq]
    omega
  have hholes := holes_zero p1 p2 g1.length (le_of_lt hp12) hp2L
  obtain ⟨out, hout, hperm⟩ := fill_spec g1 g2 p1 p2 hnd1 hp2g2 hp2L (g1.length + 1) 0
    ((g2.drop p1).take (p2 - p1)).toFinset 0 (by omega) (Nat.zero_le _)
    (fun k hk => absurd hk (Nat.not_lt_zero k))
    (by rw [List.drop_zero, hholes, hRem_len])
  refine ⟨out, hout, ?_⟩
  rw [List.drop_zero] at hperm
  have hmax0 : max 0 p1 = p1 := Nat.zero_max p1
  have hdt : (g2.take p2).drop p1 = (g2.drop p1).take (p2 - p1) := List.drop_take p2 p1 g2
  rw [hmax0, hdt] at hperm
  have htk : (g1.filter
        (fun x => decide (x ∉ ((g2.drop p1).take (p2 - p1)).toFinset))).take
          (holes p1 p2 g1.length 0)
      = g1.filter (fun x => decide (x ∉ ((g2.drop p1).take (p2 - p1)).toFinset)) := by
    apply List.take_of_length_le
    rw [hholes, hRem_len]
  rw [htk] at hperm
  have hfinal : ((g2.drop p1).take (p2 - p1)
      ++ g1.filter (fun x => decide (x ∉ ((g2.drop p1).take (p2 - p1)).toFinset))).Perm
        g1 := by
    refine (hA_perm.symm.append_right _).trans ?_
    rw [hnot_eq]
    exact hsplit_perm
  exact (hperm.trans hfinal).trans hg1

lemma cons_middle_swap (a b : α) (T C : List α) :
    (a :: (T ++ b :: C)).Perm (b :: (T ++ a :: C)) := by
  have h1 : (a :: (T ++ b :: C)).Perm (a :: b :: (T ++ C)) := List.perm_middle.cons a
  have h2 : (b :: (T ++ a :: C)).Perm (b :: a :: (T ++ C)) := List.perm_middle.cons b
  refine h1.trans (.trans ?_ h2.symm)
  exact List.Perm.swap b a (T ++ C)

lemma set_eq_of_lt {l : List α} {n : Nat} (h : n < l.length) (a : α) :
    l.set n a = l.take n ++ a :: l.drop (n + 1) := by
  rw [List.set_eq_take_append_cons_drop, if_pos h]

lemma swap_perm_aux {g : List ℤ} {i j : Nat} (hij : i < j) (hj : j < g.length) :
    ((g.set i (g.getD j 0)).set j (g.getD i 0)).Perm g := by
  have hi : i < g.length := lt_trans hij hj
  have hDlen : j - i - 1 < (g.drop (i + 1)).length := by
    simp only [List.length_drop]
    omega
  -- decompose g around positions i and j
  have hgdecomp : g = g.take i
      ++ g.getD i 0 :: ((g.drop (i + 1)).take (j - i - 1)
        ++ g.getD j 0 :: g.drop (j + 1)) := by
    conv_lhs => rw [← List.take_append_drop i g, List.drop_eq_getElem_cons hi]
    rw [getD_of_lt g 0 hi, getD_of_lt g 0 hj]
    congr 1
    congr 1
    conv_lhs => rw [← List.take_append_drop (j - i - 1) (g.drop (i + 1)),
      List.drop_eq_getElem_cons hDlen]
    congr 2
    · rw [List.getElem_drop]
      congr 1
      omega
    · rw [List.drop_drop]
      congr 1
      omega
  -- compute the swapped list
  have hset1 : g.set i (g.getD j 0)
      = g.take i ++ g.getD j 0 :: g.drop (i + 1) := set_eq_of_lt hi _
  have hswap : (g.set i (g.getD j 0)).set j (g.getD i 0)
      = g.take i ++ g.getD j 0 :: ((g.drop (i + 1)).take (j - i - 1)
        ++ g.getD i 0 :: g.drop (j + 1)) := by
    have hj2 : j < (g.set i (g.getD j 0)).length := by
      rw [List.length_set]
      exact hj
    rw [set_eq_of_lt hj2, hset1]
    have htk : (g.take i ++ g.getD j 0 :: g.drop (i + 1)).take j
        = g.take i ++ g.getD j 0 :: (g.drop (i + 1)).take (j - i - 1) := by
      rw [List.take_append_eq_append_take]
      have hlen_tk : (g.take i).length = i := by
        rw [List.length_take]
        omega
      rw [List.take_of_length_le (by omega : (g.take i).length ≤ j), hlen_tk]
      congr 1
      rw [show j - i = (j - i - 1) + 1 from by omega, List.take_succ_cons]
      congr 2
    have hdp : (g.take i ++ g.getD j 0 :: g.drop (i + 1)).drop (j + 1)
        = g.drop (j + 1) := by
      rw [List.drop_append_eq_append_drop]
      have hlen_tk : (g.take i).length = i := by
        rw [List.length_take]
        omega
      rw [List.drop_eq_nil_of_le (by omega : (g.take i).length ≤ j + 1), hlen_tk]
      rw [show j + 1 - i = (j - i - 1) + 2 from by omega]
      simp only [List.nil_append, List.drop_succ_cons]
      rw [show (j - i - 1) + 1 = j - i from by omega, List.drop_drop]
      congr 1
      omega
    rw [htk, hdp, List.append_assoc, List.cons_append]
  rw [hswap]
  conv_rhs => rw [hgdecomp]
  exact List.Perm.append_left _ (cons_middle_swap _ _ _ _)


lemma set_getD_eq_self {l : List α} {n : Nat} (d : α) (h : n < l.length) :
    l.set n (l.getD n d) = l := by
  rw [getD_of_lt l d h, set_eq_of_lt h]
  conv_rhs => rw [← List.take_append_drop n l, List.drop_eq_getElem_cons h]

lemma swap_genes_perm (g : List ℤ) (i j : Nat) (hi : i < g.length)
    (hj : j < g.length) : (swap_genes g i j).Perm g := by
  rcases Nat.lt_trichotomy i j with h | h | h
  · exact swap_perm_aux h hj
  · subst h
    rw [swap_genes, List.set_set, set_getD_eq_self 0 hi]
  · rw [swap_genes, List.set_comm _ _ _ (by omega : i ≠ j)]
    exact swap_perm_aux h hi

/-- C1: every chromosome produced by random initialization, by crossover
of parents whose genes are permutations of
`{0, …, numLocations + numVehicles − 2}`, or by swap mutation of such a
chromosome again carries each of those gene values exactly once. -/
theorem claim_C1 (n v : Nat) (sh g1 g2 g : List ℤ) (p1 p2 i j : Nat)
    (hsh : sh.Perm (all_values n v))
    (hg1 : g1.Perm (all_values n v)) (hg2 : g2.Perm (all_values n v))
    (hg : g.Perm (all_values n v))
    (hp12 : p1 < p2) (hp2 : p2 < g1.length)
    (hi : i < g.length) (hj : j < g.length) :
    (mkChromosome n v sh).genes.Perm (all_values n v)
    ∧ (∃ o1 o2, crossover g1 g2 p1 p2 = some (o1, o2)
        ∧ o1.Perm (all_values n v) ∧ o2.Perm (all_values n v))
    ∧ ((mutate (mkChromosome n v g) i j).genes).Perm (all_values n v) := by
  have hB := all_values_nodup n v
  have hp2g2 : p2 < g2.length := by
    rw [hg2.length_eq, ← hg1.length_eq]
    exact hp2
  obtain ⟨o1, ho1, hperm1⟩ := crossover_one_perm hB hg1 hg2 hp12 hp2
  obtain ⟨o2, ho2, hperm2⟩ := crossover_one_perm hB hg2 hg1 hp12 hp2g2
  refine ⟨hsh, ⟨o1, o2, ?_, hperm1, hperm2⟩,
    (swap_genes_perm g i j hi hj).trans hg⟩
  rw [crossover, ho1, ho2]
  rfl

/-- Witness for C1 at concrete permutations of `{0, 1, 2}`. -/
theorem claim_C1_witness :
    (mkChromosome 2 2 [1, 0, 2]).genes.Perm (all_values 2 2)
    ∧ (∃ o1 o2, crossover [0, 1, 2] [2, 1, 0] 0 2 = some (o1, o2)
        ∧ o1.Perm (all_values 2 2) ∧ o2.Perm (all_values 2 2))
    ∧ ((mutate (mkChromosome 2 2 [2, 0, 1]) 0 1).genes).Perm (all_values 2 2) :=
  claim_C1 2 2 [1, 0, 2] [0, 1, 2] [2, 1, 0] [2, 0, 1] 0 2 0 1 (by decide)
    (by decide) (by decide) (by decide) (by decide) (by decide) (by decide) (by decide)

/-! ### Engine-level lemmas (claims C3, C4, C5, C9). -/

lemma find_best_min {p : Population} {b : Chromosome}
    (h : find_best_chromosome p = some b) :
    ∀ c ∈ p.chromosomes, fitVal b ≤ fitVal c := by
  intro c hc
  have hsorted := List.sorted_insertionSort fitLe p.chromosomes
  have hmem : c ∈ List.insertionSort fitLe p.chromosomes :=
    (List.perm_insertionSort fitLe p.chromosomes).mem_iff.mpr hc
  rw [find_best_chromosome] at h
  cases hs : List.insertionSort fitLe p.chromosomes with
  | nil =>
      rw [hs] at h
      cases h
  | cons b0 rest =>
      rw [hs] at h hmem hsorted
      have hb0 : b0 = b := by
        simpa using h
      subst hb0
      rcases List.mem_cons.mp hmem with h1 | h1
      · subst h1
        exact le_refl _
      · exact List.rel_of_sorted_cons hsorted c h1

/-- C3: after every generation advance the incumbent is at most every
fitness in the new population, never increases, and is replaced only on
strict improvement. -/
theorem claim_C3 (g : Genetic) (rounds : List RoundRand) (gnext : Genetic)
    (h : create_next_generation g rounds = some gnext) :
    (∀ c ∈ gnext.population.chromosomes,
        fitVal gnext.best_solution ≤ fitVal c)
    ∧ fitVal gnext.best_solution ≤ fitVal g.best_solution
    ∧ (gnext.best_solution ≠ g.best_solution →
        fitVal gnext.best_solution < fitVal g.best_solution) := by
  rw [create_next_generation] at h
  obtain ⟨newChroms, hbuild, hrest⟩ := Option.bind_eq_some.mp h
  obtain ⟨cb, hfind, hg2⟩ := Option.map_eq_some'.mp hrest
  subst hg2
  have hmin := find_best_min hfind
  refine ⟨?_, ?_, ?_⟩
  · intro c hc
    show fitVal (if fitVal cb < fitVal g.best_solution then cb
      else g.best_solution) ≤ fitVal c
    by_cases hlt : fitVal cb < fitVal g.best_solution
    · rw [if_pos hlt]
      exact hmin c hc
    · rw [if_neg hlt]
      exact le_trans (not_lt.mp hlt) (hmin c hc)
  · show fitVal (if fitVal cb < fitVal g.best_solution then cb
      else g.best_solution) ≤ fitVal g.best_solution
    by_cases hlt : fitVal cb < fitVal g.best_solution
    · rw [if_pos hlt]
      exact le_of_lt hlt
    · rw [if_neg hlt]
  · intro hne
    show fitVal (if fitVal cb < fitVal g.best_solution then cb
      else g.best_solution) < fitVal g.best_solution
    by_cases hlt : fitVal cb < fitVal g.best_solution
    · rw [if_pos hlt]
      exact hlt
    · exfalso
      apply hne
      show (if fitVal cb < fitVal g.best_solution then cb
        else g.best_solution) = g.best_solution
      rw [if_neg hlt]

/-- Concrete data for witnesses: two evaluated chromosomes over a
3-by-3 zero distance matrix. -/
def cA : Chromosome := ⟨2, 1, [0, 1], some 5⟩

def cB : Chromosome := ⟨2, 1, [1, 0], some 7⟩

def demo_m0 : List (List ℚ) := [[0, 0, 0], [0, 0, 0], [0, 0, 0]]

def demo_pop : Population := ⟨2, 2, 1, demo_m0, [cA, cB]⟩

def demo_g : Genetic := ⟨demo_pop, 3, 0, 2, 0, cA, [5], [6]⟩

def demo_g1 : Genetic := ⟨demo_pop, 3, 0, 2, 1, cA, [5, 5], [6, 6]⟩

def demo_g3 : Genetic := ⟨demo_pop, 3, 0, 2, 3, cA, [5, 5, 5, 5], [6, 6, 6, 6]⟩

/-- Witness for C3 at a concrete generation advance. -/
theorem claim_C3_witness :
    create_next_generation demo_g [] = some demo_g1
    ∧ ((∀ c ∈ demo_g1.population.chromosomes,
          fitVal demo_g1.best_solution ≤ fitVal c)
      ∧ fitVal demo_g1.best_solution ≤ fitVal demo_g.best_solution
      ∧ (demo_g1.best_solution ≠ demo_g.best_solution →
          fitVal demo_g1.best_solution < fitVal demo_g.best_solution)) :=
  ⟨by with_unfolding_all decide,
    claim_C3 demo_g [] demo_g1 (by with_unfolding_all decide)⟩

lemma step_hist {g gnext : Genetic} {rounds : List RoundRand}
    (h : create_next_generation g rounds = some gnext) :
    gnext.best_fitness_history.length = g.best_fitness_history.length + 1
    ∧ gnext.avg_fitness_history.length = g.avg_fitness_history.length + 1 := by
  rw [create_next_generation] at h
  obtain ⟨newChroms, hbuild, hrest⟩ := Option.bind_eq_some.mp h
  obtain ⟨cb, hfind, hg2⟩ := Option.map_eq_some'.mp hrest
  subst hg2
  constructor <;> simp

lemma run_loop_hist : ∀ (k : Nat) (rds : List (List RoundRand)) (g gfin : Genetic),
    run_loop g k rds = some gfin →
    gfin.best_fitness_history.length = g.best_fitness_history.length + k
    ∧ gfin.avg_fitness_history.length = g.avg_fitness_history.length + k
  | 0, rds, g, gfin => by
      intro h
      cases h
      exact ⟨rfl, rfl⟩
  | k + 1, [], g, gfin => by
      intro h
      cases h
  | k + 1, r :: rest, g, gfin => by
      intro h
      obtain ⟨g2, hstep, hloop⟩ := Option.bind_eq_some.mp h
      obtain ⟨h1, h2⟩ := step_hist hstep
      obtain ⟨h3, h4⟩ := run_loop_hist k rest g2 gfin hloop
      omega

/-- C4: after `run()` with `maxGenerations = G`, both fitness histories
hold exactly `G + 1` entries (one from construction plus one per
generation advance). -/
theorem claim_C4 (pop : Population) (maxGen : Nat) (rate : ℚ) (el : Nat)
    (g gfin : Genetic) (rds : List (List RoundRand))
    (hinit : genetic_new pop maxGen rate el = some g)
    (hrun : run g rds = some gfin) :
    gfin.best_fitness_history.length = maxGen + 1
    ∧ gfin.avg_fitness_history.length = maxGen + 1 := by
  rw [genetic_new] at hinit
  obtain ⟨best, hfind, hg⟩ := Option.map_eq_some'.mp hinit
  obtain ⟨h1, h2⟩ := run_loop_hist g.max_generations rds g gfin hrun
  subst hg
  simp only [List.length_cons, List.length_nil] at h1 h2
  constructor <;> omega

/-- Witness for C4 with three generations on a concrete engine state. -/
theorem claim_C4_witness :
    genetic_new demo_pop 3 0 2 = some demo_g
    ∧ run demo_g [[], [], []] = some demo_g3
    ∧ demo_g3.best_fitness_history.length = 3 + 1
    ∧ demo_g3.avg_fitness_history.length = 3 + 1 :=
  ⟨by with_unfolding_all decide, by with_unfolding_all decide,
    claim_C4 demo_pop 3 0 2 demo_g demo_g3 [[], [], []]
      (by with_unfolding_all decide) (by with_unfolding_all decide)⟩

lemma build_loop_mem (ps : Nat) (rate : ℚ) (m : List (List ℚ))
    (chroms : List Chromosome) :
    ∀ (rounds : List RoundRand) (cur res : List Chromosome),
      build_loop ps rate m chroms cur rounds = some res → ∀ c ∈ cur, c ∈ res
  | [], cur, res => by
      intro h c hc
      unfold build_loop at h
      by_cases hlen : cur.length < ps
      · rw [if_pos hlen] at h
        cases h
      · rw [if_neg hlen] at h
        cases h
        exact hc
  | r :: rest, cur, res => by
      intro h c hc
      unfold build_loop at h
      by_cases hlen : cur.length < ps
      · rw [if_pos hlen] at h
        obtain ⟨sel, hsel, h2⟩ := Option.bind_eq_some.mp h
        by_cases hs2 : sel.length < 2
        · rw [if_pos hs2] at h2
          cases h2
          exact hc
        · rw [if_neg hs2] at h2
          obtain ⟨par1, hpar1, h3⟩ := Option.bind_eq_some.mp h2
          obtain ⟨par2, hpar2, h4⟩ := Option.bind_eq_some.mp h3
          obtain ⟨os, hos, h5⟩ := Option.bind_eq_some.mp h4
          obtain ⟨o1f, ho1f, h6⟩ := Option.bind_eq_some.mp h5
          by_cases hr1 : (cur ++ [o1f]).length < ps
          · rw [if_pos hr1] at h6
            obtain ⟨o2f, ho2f, h7⟩ := Option.bind_eq_some.mp h6
            exact build_loop_mem ps rate m chroms rest _ res h7 c
              (by simp [hc])
          · rw [if_neg hr1] at h6
            exact build_loop_mem ps rate m chroms rest _ res h6 c
              (by simp [hc])
      · rw [if_neg hlen] at h
        cases h
        exact hc

/-- C5: the `elitismSize` lowest-fitness chromosomes of generation `k`
(the head of the fitness-sorted population) reappear, genes and fitness
identical, in generation `k + 1`. -/
theorem claim_C5 (g : Genetic) (rounds : List RoundRand) (gnext : Genetic)
    (h : create_next_generation g rounds = some gnext)
    (_hel : g.elitism_size ≤ g.population.pop_size) :
    ∀ c ∈ (List.insertionSort fitLe g.population.chromosomes).take g.elitism_size,
      c ∈ gnext.population.chromosomes := by
  rw [create_next_generation] at h
  obtain ⟨newChroms, hbuild, hrest⟩ := Option.bind_eq_some.mp h
  obtain ⟨cb, hfind, hg2⟩ := Option.map_eq_some'.mp hrest
  subst hg2
  intro c hc
  exact build_loop_mem _ _ _ _ rounds _ newChroms hbuild c hc

/-- Witness for C5 at a concrete generation advance with
`elitismSize = popSize = 2`. -/
theorem claim_C5_witness :
    (create_next_generation demo_g [] = some demo_g1
      ∧ demo_g.elitism_size ≤ demo_g.population.pop_size)
    ∧ ∀ c ∈ (List.insertionSort fitLe
          demo_g.population.chromosomes).take demo_g.elitism_size,
        c ∈ demo_g1.population.chromosomes :=
  ⟨⟨by with_unfolding_all decide, by decide⟩,
    claim_C5 demo_g [] demo_g1 (by with_unfolding_all decide) (by decide)⟩

lemma selection_two {chroms : List Chromosome} {prs : (Nat × Nat) × (Nat × Nat)}
    {sel : List Chromosome} (h : selection chroms prs = some sel) :
    sel.length = 2 := by
  rw [selection] at h
  obtain ⟨w1, hw1, h2⟩ := Option.bind_eq_some.mp h
  obtain ⟨w2, hw2, h3⟩ := Option.map_eq_some'.mp h2
  subst h3
  rfl

lemma build_loop_length (ps : Nat) (rate : ℚ) (m : List (List ℚ))
    (chroms : List Chromosome) :
    ∀ (rounds : List RoundRand) (cur res : List Chromosome),
      cur.length ≤ ps → build_loop ps rate m chroms cur rounds = some res →
      res.length = ps
  | [], cur, res => by
      intro hle h
      unfold build_loop at h
      by_cases hlen : cur.length < ps
      · rw [if_pos hlen] at h
        cases h
      · rw [if_neg hlen] at h
        cases h
        omega
  | r :: rest, cur, res => by
      intro hle h
      unfold build_loop at h
      by_cases hlen : cur.length < ps
      · rw [if_pos hlen] at h
        obtain ⟨sel, hsel, h2⟩ := Option.bind_eq_some.mp h
        have hs2 : ¬(sel.length < 2) := by
          rw [selection_two hsel]
          omega
        rw [if_neg hs2] at h2
        obtain ⟨par1, hpar1, h3⟩ := Option.bind_eq_some.mp h2
        obtain ⟨par2, hpar2, h4⟩ := Option.bind_eq_some.mp h3
        obtain ⟨os, hos, h5⟩ := Option.bind_eq_some.mp h4
        obtain ⟨o1f, ho1f, h6⟩ := Option.bind_eq_some.mp h5
        by_cases hr1 : (cur ++ [o1f]).length < ps
        · rw [if_pos hr1] at h6
          obtain ⟨o2f, ho2f, h7⟩ := Option.bind_eq_some.mp h6
          refine build_loop_length ps rate m chroms rest _ res ?_ h7
          simp only [List.length_append, List.length_cons, List.length_nil] at hr1 ⊢
          omega
        · rw [if_neg hr1] at h6
          refine build_loop_length ps rate m chroms rest _ res ?_ h6
          simp only [List.length_append, List.length_cons, List.length_nil] at hlen ⊢
          omega
      · rw [if_neg hlen] at h
        cases h
        omega

lemma with_fitness_isSome {c cf : Chromosome} {m : List (List ℚ)}
    (h : with_fitness c m = some cf) : cf.fitness.isSome := by
  rw [with_fitness] at h
  obtain ⟨f, hf, hcf⟩ := Option.map_eq_some'.mp h
  subst hcf
  rfl

lemma build_loop_fit (ps : Nat) (rate : ℚ) (m : List (List ℚ))
    (chroms : List Chromosome) :
    ∀ (rounds : List RoundRand) (cur res : List Chromosome),
      (∀ c ∈ cur, c.fitness.isSome) →
      build_loop ps rate m chroms cur rounds = some res →
      ∀ c ∈ res, c.fitness.isSome
  | [], cur, res => by
      intro hcur h
      unfold build_loop at h
      by_cases hlen : cur.length < ps
      · rw [if_pos hlen] at h
        cases h
      · rw [if_neg hlen] at h
        cases h
        exact hcur
  | r :: rest, cur, res => by
      intro hcur h
      unfold build_loop at h
      by_cases hlen : cur.length < ps
      · rw [if_pos hlen] at h
        obtain ⟨sel, hsel, h2⟩ := Option.bind_eq_some.mp h
        by_cases hs2 : sel.length < 2
        · rw [if_pos hs2] at h2
          cases h2
          exact hcur
        · rw [if_neg hs2] at h2
          obtain ⟨par1, hpar1, h3⟩ := Option.bind_eq_some.mp h2
          obtain ⟨par2, hpar2, h4⟩ := Option.bind_eq_some.mp h3
          obtain ⟨os, hos, h5⟩ := Option.bind_eq_some.mp h4
          obtain ⟨o1f, ho1f, h6⟩ := Option.bind_eq_some.mp h5
          have hcur1 : ∀ c ∈ cur ++ [o1f], c.fitness.isSome := by
            intro c hc
            rcases List.mem_append.mp hc with hc | hc
            · exact hcur c hc
            · rw [List.mem_singleton.mp hc]
              exact with_fitness_isSome ho1f
          by_cases hr1 : (cur ++ [o1f]).length < ps
          · rw [if_pos hr1] at h6
            obtain ⟨o2f, ho2f, h7⟩ := Option.bind_eq_some.mp h6
            refine build_loop_fit ps rate m chroms rest _ res ?_ h7
            intro c hc
            rcases List.mem_append.mp hc with hc | hc
            · exact hcur1 c hc
            · rw [List.mem_singleton.mp hc]
              exact with_fitness_isSome ho2f
          · rw [if_neg hr1] at h6
            exact build_loop_fit ps rate m chroms rest _ res hcur1 h6
      · rw [if_neg hlen] at h
        cases h
        exact hcur

lemma mapM_length_prop {α β : Type} (f : α → Option β) (P : β → Prop)
    (hf : ∀ a b, f a = some b → P b) :
    ∀ (ks : List α) (bs : List β), ks.mapM f = some bs →
      bs.length = ks.length ∧ ∀ b ∈ bs, P b
  | [], bs => by
      intro h
      rw [List.mapM_nil] at h
      cases h
      exact ⟨rfl, by simp⟩
  | a :: ks, bs => by
      intro h
      rw [List.mapM_cons] at h
      obtain ⟨b, hb, h2⟩ := Option.bind_eq_some.mp h
      obtain ⟨bs2, hbs2, h3⟩ := Option.bind_eq_some.mp h2
      cases h3
      obtain ⟨hlen, hall⟩ := mapM_length_prop f P hf ks bs2 hbs2
      refine ⟨by simp [hlen], ?_⟩
      intro c hc
      rcases List.mem_cons.mp hc with hc | hc
      · subst hc
        exact hf a c hb
      · exact hall c hc

/-- C9: after Population construction and after every generation
advance, the population holds exactly `popSize` chromosomes and every
one of them has a computed fitness. -/
theorem claim_C9 (ps n v : Nat) (m : List (List ℚ)) (shuffles : Nat → List ℤ)
    (p : Population) (g gnext : Genetic) (rounds : List RoundRand)
    (_hps : 2 ≤ ps)
    (hel : g.elitism_size ≤ g.population.pop_size)
    (hpop : population_new ps n v m shuffles = some p)
    (hfit : ∀ c ∈ g.population.chromosomes, c.fitness.isSome)
    (hstep : create_next_generation g rounds = some gnext) :
    (p.chromosomes.length = p.pop_size
      ∧ ∀ c ∈ p.chromosomes, c.fitness.isSome)
    ∧ (gnext.population.chromosomes.length = gnext.population.pop_size
      ∧ ∀ c ∈ gnext.population.chromosomes, c.fitness.isSome) := by
  constructor
  · rw [population_new] at hpop
    obtain ⟨cs, hcs, hp⟩ := Option.map_eq_some'.mp hpop
    subst hp
    have := mapM_length_prop (fun k => with_fitness (mkChromosome n v (shuffles k)) m)
      (fun c => c.fitness.isSome) (fun a b hb => with_fitness_isSome hb)
      (List.range ps) cs hcs
    exact ⟨by simp [this.1], this.2⟩
  · rw [create_next_generation] at hstep
    obtain ⟨newChroms, hbuild, hrest⟩ := Option.bind_eq_some.mp hstep
    obtain ⟨cb, hfind, hg2⟩ := Option.map_eq_some'.mp hrest
    subst hg2
    have hstart_len : ((List.insertionSort fitLe
        g.population.chromosomes).take g.elitism_size).length
          ≤ g.population.pop_size := by
      rw [List.length_take]
      omega
    have hstart_fit : ∀ c ∈ (List.insertionSort fitLe
        g.population.chromosomes).take g.elitism_size, c.fitness.isSome := by
      intro c hc
      have h1 : c ∈ List.insertionSort fitLe g.population.chromosomes :=
        List.take_subset _ _ hc
      exact hfit c ((List.perm_insertionSort fitLe g.population.chromosomes).mem_iff.mp h1)
    exact ⟨build_loop_length _ _ _ _ rounds _ newChroms hstart_len hbuild,
      build_loop_fit _ _ _ _ rounds _ newChroms hstart_fit hbuild⟩

/-- Witness for C9: a freshly constructed 2-chromosome population and a
concrete generation advance. -/
theorem claim_C9_witness :
    (population_new 2 2 1 demo_m0 (fun k => if k = 0 then [0, 1] else [1, 0])
        = some ⟨2, 2, 1, demo_m0, [⟨2, 1, [0, 1], some 0⟩, ⟨2, 1, [1, 0], some 0⟩]⟩
      ∧ create_next_generation demo_g [] = some demo_g1)
    ∧ ((Population.mk 2 2 1 demo_m0
          [⟨2, 1, [0, 1], some 0⟩, ⟨2, 1, [1, 0], some 0⟩]).chromosomes.length
        = (Population.mk 2 2 1 demo_m0
          [⟨2, 1, [0, 1], some 0⟩, ⟨2, 1, [1, 0], some 0⟩]).pop_size
      ∧ ∀ c ∈ (Population.mk 2 2 1 demo_m0
          [⟨2, 1, [0, 1], some 0⟩, ⟨2, 1, [1, 0], some 0⟩]).chromosomes,
            c.fitness.isSome)
    ∧ (demo_g1.population.chromosomes.length = demo_g1.population.pop_size
      ∧ ∀ c ∈ demo_g1.population.chromosomes, c.fitness.isSome) :=
  ⟨⟨by with_unfolding_all decide, by with_unfolding_all decide⟩,
    (claim_C9 2 2 1 demo_m0 (fun k => if k = 0 then [0, 1] else [1, 0])
      ⟨2, 2, 1, demo_m0, [⟨2, 1, [0, 1], some 0⟩, ⟨2, 1, [1, 0], some 0⟩]⟩
      demo_g demo_g1 [] (by decide) (by decide)
      (by with_unfolding_all decide) (by decide)
      (by with_unfolding_all decide)).1,
    (claim_C9 2 2 1 demo_m0 (fun k => if k = 0 then [0, 1] else [1, 0])
      ⟨2, 2, 1, demo_m0, [⟨2, 1, [0, 1], some 0⟩, ⟨2, 1, [1, 0], some 0⟩]⟩
      demo_g demo_g1 [] (by decide) (by decide)
      (by with_unfolding_all decide) (by decide)
      (by with_unfolding_all decide)).2⟩

/-! ### Claim C6: parents of a reproduction round versus the two
tournament winners. -/

/-- Four chromosomes with pairwise distinct fitness for the C6
counterexample. -/
def d1 : Chromosome := ⟨2, 1, [0, 1], some 1⟩

def d2 : Chromosome := ⟨2, 1, [1, 0], some 2⟩

def d3 : Chromosome := ⟨2, 1, [0, 1], some 3⟩

def d4 : Chromosome := ⟨2, 1, [1, 0], some 4⟩

/-- A reproduction-round oracle whose two `random.choice` draws both
pick the first tournament winner. -/
def demo_round : RoundRand := ⟨((0, 1), (2, 3)), 0, 0, 0, 1, 1, (0, 1), 1, (0, 1)⟩

/-- Counterexample to C6 as stated: selection returns the two distinct
winners `d1` and `d3`, yet the pair handed to crossover is `(d1, d1)` —
`random.choice` draws each parent independently with replacement, so the
recombined parents are not the two selected chromosomes. -/
theorem claim_C6_counterexample :
    selection [d1, d2, d3, d4] demo_round.sel_pairs = some [d1, d3]
    ∧ round_parents [d1, d2, d3, d4] demo_round = some (d1, d1)
    ∧ d1 ≠ d3
    ∧ (d1, d1) ≠ (d1, d3) ∧ (d1, d1) ≠ (d3, d1) := by
  with_unfolding_all decide

/-- C6 (amended): each round invokes selection once and obtains exactly
2 tournament winners; the 2 crossover parents are each drawn from those
winners (with replacement), so both parents are winners but the pair
need not consist of both distinct winners. -/
theorem claim_C6 (chroms : List Chromosome) (r : RoundRand)
    (sel : List Chromosome) (pr : Chromosome × Chromosome)
    (hsel : selection chroms r.sel_pairs = some sel)
    (hpar : round_parents chroms r = some pr) :
    sel.length = 2 ∧ pr.1 ∈ sel ∧ pr.2 ∈ sel := by
  refine ⟨selection_two hsel, ?_, ?_⟩ <;>
  · rw [round_parents, hsel] at hpar
    simp only [Option.some_bind] at hpar
    obtain ⟨par1, hp1, h4⟩ := Option.bind_eq_some.mp hpar
    obtain ⟨par2, hp2, h5⟩ := Option.map_eq_some'.mp h4
    subst h5
    first
      | exact List.getElem?_mem hp1
      | exact List.getElem?_mem hp2

/-- Witness for the amended C6 at the counterexample round. -/
theorem claim_C6_witness :
    (selection [d1, d2, d3, d4] demo_round.sel_pairs = some [d1, d3]
      ∧ round_parents [d1, d2, d3, d4] demo_round = some (d1, d1))
    ∧ ([d1, d3] : List Chromosome).length = 2
    ∧ (d1, d1).1 ∈ [d1, d3] ∧ (d1, d1).2 ∈ [d1, d3] :=
  ⟨⟨by with_unfolding_all decide, by with_unfolding_all decide⟩,
    (claim_C6 [d1, d2, d3, d4] demo_round [d1, d3] (d1, d1)
      (by with_unfolding_all decide) (by with_unfolding_all decide)).1,
    (claim_C6 [d1, d2, d3, d4] demo_round [d1, d3] (d1, d1)
      (by with_unfolding_all decide) (by with_unfolding_all decide)).2.1,
    (claim_C6 [d1, d2, d3, d4] demo_round [d1, d3] (d1, d1)
      (by with_unfolding_all decide) (by with_unfolding_all decide)).2.2⟩

/-! ### Claim C7: construction never validates degenerate parameters. -/

lemma mapM_isSome {α β : Type} (f : α → Option β) :
    ∀ ks : List α, (∀ a ∈ ks, (f a).isSome) →
      ∃ bs, ks.mapM f = some bs ∧ bs.length = ks.length
  | [] => fun _ => ⟨[], by rw [List.mapM_nil]; rfl, rfl⟩
  | a :: ks => fun h => by
      obtain ⟨b, hb⟩ := Option.isSome_iff_exists.mp (h a (List.mem_cons_self a ks))
      obtain ⟨bs, hbs, hlen⟩ :=
        mapM_isSome f ks (fun x hx => h x (List.mem_cons_of_mem a hx))
      refine ⟨b :: bs, ?_, by simp [hlen]⟩
      rw [List.mapM_cons, hb, hbs]
      rfl

/-- A degenerate configuration accepted by construction: `popSize = 1`,
`numVehicles = 0`, and (below) `elitismSize = 3 > popSize`. -/
def degenerate_pop : Population := ⟨1, 2, 0, demo_m0, [⟨2, 0, [0], some 0⟩]⟩

/-- Counterexample to C7 as stated: with `popSize = 1 < 2`,
`numVehicles = 0 < 1` and `elitismSize = 3 > popSize`, both Population
and Genetic construction succeed — no configuration validation exists. -/
theorem claim_C7_counterexample :
    population_new 1 2 0 demo_m0 (fun _ => [0]) = some degenerate_pop
    ∧ genetic_new degenerate_pop 5 0 3
        = some ⟨degenerate_pop, 5, 0, 3, 0, ⟨2, 0, [0], some 0⟩, [0], [0]⟩ := by
  constructor
  · with_unfolding_all decide
  · with_unfolding_all decide

/-- C7 (amended): Population and Genetic construction perform no
parameter validation — for any `popSize ≥ 1`, any `elitismSize`
(including values above `popSize`) and any `numVehicles` (including 0),
construction succeeds whenever every initial fitness evaluation
succeeds; degenerate parameters are not rejected at construction. -/
theorem claim_C7 (ps n v el maxGen : Nat) (rate : ℚ) (m : List (List ℚ))
    (shuffles : Nat → List ℤ) (hps : 1 ≤ ps)
    (heval : ∀ k, k < ps →
      (calculate_fitness (mkChromosome n v (shuffles k)) m).isSome) :
    ∃ p g, population_new ps n v m shuffles = some p
      ∧ genetic_new p maxGen rate el = some g := by
  obtain ⟨cs, hcs, hlen⟩ := mapM_isSome
    (fun k => with_fitness (mkChromosome n v (shuffles k)) m) (List.range ps)
    (by
      intro k hk
      show (with_fitness (mkChromosome n v (shuffles k)) m).isSome
      rw [with_fitness]
      have hev := heval k (List.mem_range.mp hk)
      obtain ⟨f, hf⟩ := Option.isSome_iff_exists.mp hev
      rw [hf]
      rfl)
  have hp : population_new ps n v m shuffles
      = some ⟨ps, n, v, m, cs⟩ := by
    rw [population_new, init_population, hcs]
    rfl
  have hcs_len : cs.length = ps := by
    rw [hlen, List.length_range]
  have hsort_ne : List.insertionSort fitLe cs ≠ [] := by
    intro hnil
    have := (List.perm_insertionSort fitLe cs).length_eq
    rw [hnil] at this
    simp only [List.length_nil] at this
    omega
  obtain ⟨b, rest, hbr⟩ := List.exists_cons_of_ne_nil hsort_ne
  have hfind : find_best_chromosome ⟨ps, n, v, m, cs⟩ = some b := by
    rw [find_best_chromosome]
    show (List.insertionSort fitLe cs).head? = some b
    rw [hbr]
    rfl
  exact ⟨⟨ps, n, v, m, cs⟩,
    { population := ⟨ps, n, v, m, cs⟩, max_generations := maxGen,
      mutation_rate := rate, elitism_size := el, current_generation := 0,
      best_solution := b, best_fitness_history := [fitVal b],
      avg_fitness_history := [get_average_fitness ⟨ps, n, v, m, cs⟩] },
    hp, by rw [genetic_new, hfind]; rfl⟩

/-- Witness for the amended C7 at the degenerate configuration. -/
theorem claim_C7_witness :
    (1 ≤ 1
      ∧ (calculate_fitness (mkChromosome 2 0 [0]) demo_m0).isSome)
    ∧ ∃ p g, population_new 1 2 0 demo_m0 (fun _ => [0]) = some p
        ∧ genetic_new p 5 0 3 = some g :=
  ⟨⟨by decide, by with_unfolding_all decide⟩,
    claim_C7 1 2 0 3 5 0 demo_m0 (fun _ => [0]) (by decide)
      (fun _ _ => (by with_unfolding_all decide :
        (calculate_fitness (mkChromosome 2 0 [0]) demo_m0).isSome))⟩
